import Mathlib

/-
Verification of the sponsored-swap orchestration engine: a shallow
embedding of the fee calculator, fee validator, transaction builder,
price oracle client, provider registry and swap orchestrator, with
theorems settling the frozen claims about them.

Numbers that the source manipulates as JavaScript numbers or Decimal.js
values are embedded as rationals; timestamps as integers; fallible
operations as Except values; external calls (RPC, providers, repository)
as explicit parameters recording their outcome.
-/

/-! ## Constants (src/lib/config/constants.ts) -/

/-- LAMPORTS_PER_SOL = 1_000_000_000. -/
def LAMPORTS_PER_SOL : ℚ := 1000000000

/-- FEE_VOLATILITY_BUFFER default 0.15. -/
def FEE_VOLATILITY_BUFFER : ℚ := 15 / 100

/-- PLATFORM_FEE_BPS = 0 (0 basis points = no fee). -/
def PLATFORM_FEE_BPS : ℚ := 0

/-- MAX_QUOTE_DRIFT default 0.02. -/
def MAX_QUOTE_DRIFT : ℚ := 2 / 100

/-- System program address, from solana-program/system. -/
def SYSTEM_PROGRAM_ADDRESS : String := "11111111111111111111111111111111"

/-- SPL Token program address, from solana-program/token. -/
def TOKEN_PROGRAM_ADDRESS : String := "TokenkegQfeZyiNwAJbNbGKPFXCWuBvf9Ss623VQ5DA"

/-- Token-2022 program address, from solana-program/token-2022. -/
def TOKEN_2022_PROGRAM_ADDRESS : String := "TokenzQdBNbLqP5VEhdkAS6EPFLC1PHnBqCXEpPxuEb"

/-- Associated token program address, from solana-program/token. -/
def ASSOCIATED_TOKEN_PROGRAM_ADDRESS : String := "ATokenGPvbdGVxr1b2hvZbsiqW5xWH25efTNsLJA8knL"

/-! ## FeeCalculator.calculateMinimumFee (src/lib/fees/FeeCalculator.ts) -/

/-- Decimal.toDecimalPlaces with ROUND_UP toward the larger value:
ceiling at dp decimal places. -/
def roundUpDecimals (dp : ℕ) (x : ℚ) : ℚ := ((⌈x * 10 ^ dp⌉ : ℤ) : ℚ) / 10 ^ dp

structure MinimumFee where
  feeInUsdc : ℚ
  feeInSol : ℚ
  deriving DecidableEq

/-- FeeCalculator.calculateMinimumFee, with the oracle price obtained in
that call passed explicitly as solPriceUsd. -/
def calculateMinimumFee (totalSponsorCost volatilityBuffer solPriceUsd : ℚ) : MinimumFee :=
  let totalCostSol := totalSponsorCost / LAMPORTS_PER_SOL
  let bufferedCostSol := totalCostSol * (1 + volatilityBuffer)
  let platformFeeMultiplier := 1 + PLATFORM_FEE_BPS / 10000
  let finalCostSol := bufferedCostSol * platformFeeMultiplier
  let finalCostUsd := finalCostSol * solPriceUsd
  { feeInUsdc := roundUpDecimals 6 finalCostUsd
    feeInSol := roundUpDecimals 9 finalCostSol }

theorem le_roundUpDecimals (dp : ℕ) (x : ℚ) : x ≤ roundUpDecimals dp x := by
  unfold roundUpDecimals
  have hpow : (0 : ℚ) < 10 ^ dp := by positivity
  rw [le_div_iff hpow]
  exact Int.le_ceil (x * 10 ^ dp)

/-! ## FeeCalculator price cache and validateFeeCoverage -/

structure PriceCacheEntry where
  price : ℚ
  timestamp : ℤ
  deriving DecidableEq

/-- FeeCalculator.getCachedSolPrice: the cached price if one exists,
otherwise a PriceOracleError. -/
def getCachedSolPrice (cache : Option PriceCacheEntry) : Except String ℚ :=
  match cache with
  | some cached => .ok cached.price
  | none => .error "No cached SOL price available - call getSolPrice first"

structure UserFee where
  token : String
  amount : ℚ
  valueUSD : ℚ
  deriving DecidableEq

/-- FeeCalculator.validateFeeCoverage: the try/catch returns false when
getCachedSolPrice throws. Only totalSponsorCost of the cost breakdown is
read. -/
def validateFeeCoverage (userFee : UserFee) (totalSponsorCost : ℚ)
    (cache : Option PriceCacheEntry) : Bool :=
  match getCachedSolPrice cache with
  | .error _ => false
  | .ok solPrice =>
    let costSol := totalSponsorCost / LAMPORTS_PER_SOL
    let costUsd := costSol * solPrice
    let requiredMinimum := costUsd * (1 + FEE_VOLATILITY_BUFFER)
    decide (requiredMinimum ≤ userFee.valueUSD)

structure FundLeakCheck where
  valid : Bool
  warning : Option String
  deriving DecidableEq

/-- FeeValidator.validateNoFundLeak (src/lib/fees/FeeValidator.ts). -/
def FeeValidator_validateNoFundLeak (userFee : UserFee) (totalSponsorCost : ℚ)
    (cache : Option PriceCacheEntry) : FundLeakCheck :=
  if validateFeeCoverage userFee totalSponsorCost cache then
    { valid := true, warning := none }
  else
    { valid := false
      warning := some "CRITICAL: User fee does not cover sponsor costs - potential fund leak" }

/-! ## FeeValidator.validateQuoteDrift and DeBridgeProvider.validateQuote -/

structure QuoteValidation where
  isValid : Bool
  driftPercentage : ℚ
  deriving DecidableEq

/-- DeBridgeProvider.validateQuote: expiry check, then re-quote; a failed
re-quote (freshDestAmount = none, the catch branch) is invalid with drift
0; otherwise drift is the absolute relative change of the destination
amount and the quote is valid when drift is at most MAX_QUOTE_DRIFT. -/
def DeBridge_validateQuote (expired : Bool) (originalDestAmount : ℚ)
    (freshDestAmount : Option ℚ) : QuoteValidation :=
  if expired then { isValid := false, driftPercentage := 0 }
  else
    match freshDestAmount with
    | none => { isValid := false, driftPercentage := 0 }
    | some currentAmount =>
      let drift := |(currentAmount - originalDestAmount) / originalDestAmount|
      { isValid := decide (drift ≤ MAX_QUOTE_DRIFT), driftPercentage := drift }

/-- FeeValidator.validateQuoteDrift. -/
def validateQuoteDrift (validation : QuoteValidation) (maxDrift : ℚ) : Bool :=
  validation.isValid && decide (validation.driftPercentage ≤ maxDrift)

/-! ## FeeValidator.validateTransactionStructure -/

structure CompiledInstruction where
  programIdIndex : ℕ
  accountKeyIndexes : List ℕ
  data : List ℕ
  deriving DecidableEq

structure StructureCheck where
  valid : Bool
  errors : List String
  deriving DecidableEq

/-- FeeValidator.validateTransactionStructure: fewer than two
instructions is an error; the first instruction must target the System,
Token or Token-2022 program (the associated token program is not in this
accept set). An unresolvable or empty program id string is an error. -/
def validateTransactionStructure (compiledInstructions : List CompiledInstruction)
    (staticAccountKeys : List String) : StructureCheck :=
  let errors0 : List String :=
    if compiledInstructions.length < 2 then
      ["Transaction must have at least 2 instructions"]
    else []
  if compiledInstructions.length = 0 then { valid := false, errors := errors0 }
  else
    match compiledInstructions.head? with
    | none => { valid := false, errors := errors0 ++ ["Cannot read first instruction"] }
    | some firstIx =>
      match staticAccountKeys[firstIx.programIdIndex]? with
      | none =>
        { valid := false
          errors := errors0 ++ ["Cannot resolve program ID for first instruction"] }
      | some programId =>
        if programId = "" then
          { valid := false
            errors := errors0 ++ ["Cannot resolve program ID for first instruction"] }
        else
          let isSystemTransfer := programId = SYSTEM_PROGRAM_ADDRESS
          let isTokenTransfer :=
            programId = TOKEN_PROGRAM_ADDRESS ∨ programId = TOKEN_2022_PROGRAM_ADDRESS
          let errors1 :=
            if ¬(isSystemTransfer ∨ isTokenTransfer) then
              errors0 ++ ["First instruction must be fee transfer (SystemProgram or TokenProgram)"]
            else errors0
          { valid := errors1.isEmpty, errors := errors1 }

/-! ## Claim theorems: C1, C10, C9, C5 -/

/-- C1: calculateMinimumFee rounds upward in both denominations, so the
returned minimum fee never undershoots the buffered sponsor cost: the
USDC fee is at least totalSponsorCost / 10^9 * solPrice *
(1 + volatilityBuffer) and the SOL fee is at least
totalSponsorCost / 10^9 * (1 + volatilityBuffer); the platform fee
multiplier is 1 + PLATFORM_FEE_BPS / 10000 with PLATFORM_FEE_BPS = 0. -/
theorem calculateMinimumFee_covers_buffered_cost
    (totalSponsorCost volatilityBuffer solPriceUsd : ℚ) :
    totalSponsorCost / LAMPORTS_PER_SOL * solPriceUsd * (1 + volatilityBuffer) ≤
      (calculateMinimumFee totalSponsorCost volatilityBuffer solPriceUsd).feeInUsdc ∧
    totalSponsorCost / LAMPORTS_PER_SOL * (1 + volatilityBuffer) ≤
      (calculateMinimumFee totalSponsorCost volatilityBuffer solPriceUsd).feeInSol := by
  unfold calculateMinimumFee PLATFORM_FEE_BPS
  constructor
  · calc totalSponsorCost / LAMPORTS_PER_SOL * solPriceUsd * (1 + volatilityBuffer)
        = totalSponsorCost / LAMPORTS_PER_SOL * (1 + volatilityBuffer) * (1 + 0 / 10000) *
            solPriceUsd := by ring
      _ ≤ _ := le_roundUpDecimals 6 _
  · calc totalSponsorCost / LAMPORTS_PER_SOL * (1 + volatilityBuffer)
        = totalSponsorCost / LAMPORTS_PER_SOL * (1 + volatilityBuffer) * (1 + 0 / 10000) := by
          ring
      _ ≤ _ := le_roundUpDecimals 9 _

/-- C10: with no cached SOL price, validateFeeCoverage returns false
instead of throwing (its catch branch), so FeeValidator.validateNoFundLeak
can never report a fee as covering sponsor costs while the reference
price is unknown: it fails closed. -/
theorem validateFeeCoverage_fails_closed (userFee : UserFee) (totalSponsorCost : ℚ) :
    validateFeeCoverage userFee totalSponsorCost none = false ∧
    (FeeValidator_validateNoFundLeak userFee totalSponsorCost none).valid = false := by
  constructor <;> rfl

/-- C9: quote-drift validation accepts a re-quoted amount iff the quote
is not expired and the absolute relative drift is at most the 2% default
threshold; concretely, from an original destination amount of 1000 a
re-quote of 970 (3% drift) is rejected and 985 (1.5% drift) is
accepted. -/
theorem validateQuoteDrift_spec :
    (∀ (expired : Bool) (orig fresh : ℚ),
      (validateQuoteDrift (DeBridge_validateQuote expired orig (some fresh))
          MAX_QUOTE_DRIFT = true) ↔
        (expired = false ∧ |(fresh - orig) / orig| ≤ 2 / 100)) ∧
    validateQuoteDrift (DeBridge_validateQuote false 1000 (some 970)) MAX_QUOTE_DRIFT = false ∧
    validateQuoteDrift (DeBridge_validateQuote false 1000 (some 985)) MAX_QUOTE_DRIFT = true := by
  have hgen : ∀ (expired : Bool) (orig fresh : ℚ),
      (validateQuoteDrift (DeBridge_validateQuote expired orig (some fresh))
          MAX_QUOTE_DRIFT = true) ↔
        (expired = false ∧ |(fresh - orig) / orig| ≤ 2 / 100) := by
    intro expired orig fresh
    cases expired with
    | true => simp [DeBridge_validateQuote, validateQuoteDrift]
    | false => simp [DeBridge_validateQuote, validateQuoteDrift, MAX_QUOTE_DRIFT]
  refine ⟨hgen, ?_, ?_⟩
  · have h := (hgen false 1000 970).not
    rw [Bool.not_eq_true] at h
    rw [h]
    intro hcon
    have habs : |((970 : ℚ) - 1000) / 1000| = 3 / 100 := by
      rw [show ((970 : ℚ) - 1000) / 1000 = -(3 / 100) by norm_num, abs_neg,
        abs_of_nonneg (by norm_num)]
    rw [habs] at hcon
    norm_num at hcon
  · rw [hgen false 1000 985]
    refine ⟨rfl, ?_⟩
    rw [show ((985 : ℚ) - 1000) / 1000 = -(3 / 200) by norm_num, abs_neg,
      abs_of_nonneg (by norm_num)]
    norm_num

theorem vts_invalid_of_short (compiledInstructions : List CompiledInstruction)
    (staticAccountKeys : List String) (h : compiledInstructions.length < 2) :
    (validateTransactionStructure compiledInstructions staticAccountKeys).valid = false := by
  simp only [validateTransactionStructure, if_pos h]
  split
  · rfl
  · split
    · rfl
    · split
      · rfl
      · split
        · rfl
        · split <;> rfl

theorem vts_valid_characterization (compiledInstructions : List CompiledInstruction)
    (staticAccountKeys : List String)
    (hvalid : (validateTransactionStructure compiledInstructions staticAccountKeys).valid = true) :
    2 ≤ compiledInstructions.length ∧
    ∃ firstIx programId, compiledInstructions.head? = some firstIx ∧
      staticAccountKeys[firstIx.programIdIndex]? = some programId ∧
      (programId = SYSTEM_PROGRAM_ADDRESS ∨ programId = TOKEN_PROGRAM_ADDRESS ∨
       programId = TOKEN_2022_PROGRAM_ADDRESS) := by
  by_cases hlt : compiledInstructions.length < 2
  · rw [vts_invalid_of_short compiledInstructions staticAccountKeys hlt] at hvalid
    exact absurd hvalid (by simp)
  · refine ⟨by omega, ?_⟩
    have h0 : ¬ compiledInstructions.length = 0 := by omega
    simp only [validateTransactionStructure, if_neg hlt, if_neg h0] at hvalid
    split at hvalid
    · simp at hvalid
    · split at hvalid
      · simp at hvalid
      · split at hvalid
        · simp at hvalid
        · split at hvalid
          · simp at hvalid
          · rename_i x1 firstIx hh x2 programId hgi hemp hprog
            exact ⟨firstIx, programId, hh, hgi, not_not.mp hprog⟩

/-- C5: validateTransactionStructure rejects every instruction list with
fewer than two instructions (in particular any length-1 list, whatever
its program id), and accepts only lists whose first instruction resolves
to a recognized fee-transfer-capable program id. -/
theorem validateTransactionStructure_spec (compiledInstructions : List CompiledInstruction)
    (staticAccountKeys : List String) :
    (compiledInstructions.length < 2 →
      (validateTransactionStructure compiledInstructions staticAccountKeys).valid = false) ∧
    (∀ onlyIx, compiledInstructions = [onlyIx] →
      (validateTransactionStructure compiledInstructions staticAccountKeys).valid = false) ∧
    ((validateTransactionStructure compiledInstructions staticAccountKeys).valid = true →
      2 ≤ compiledInstructions.length ∧
      ∃ firstIx programId, compiledInstructions.head? = some firstIx ∧
        staticAccountKeys[firstIx.programIdIndex]? = some programId ∧
        (programId = SYSTEM_PROGRAM_ADDRESS ∨ programId = TOKEN_PROGRAM_ADDRESS ∨
         programId = TOKEN_2022_PROGRAM_ADDRESS ∨
         programId = ASSOCIATED_TOKEN_PROGRAM_ADDRESS)) := by
  refine ⟨fun h => vts_invalid_of_short _ _ h, ?_, ?_⟩
  · intro onlyIx hone
    exact vts_invalid_of_short _ _ (by rw [hone]; simp)
  · intro hvalid
    obtain ⟨hlen, firstIx, programId, hh, hgi, hprog⟩ :=
      vts_valid_characterization _ _ hvalid
    exact ⟨hlen, firstIx, programId, hh, hgi,
      hprog.elim (fun h1 => Or.inl h1)
        (fun h2 => h2.elim (fun h3 => Or.inr (Or.inl h3)) (fun h4 => Or.inr (Or.inr (Or.inl h4))))⟩

/-! ## TransactionBuilder.validateNoFundLeak (src/lib/transactions/TransactionBuilder.ts) -/

structure MessageInstruction where
  programAddressIndex : ℕ
  accountIndices : List ℕ
  data : List ℕ
  deriving DecidableEq

structure CompiledMessage where
  staticAccounts : List String
  instructions : List MessageInstruction
  deriving DecidableEq

structure ValidationResult where
  isValid : Bool
  errors : List String
  warnings : List String
  deriving DecidableEq

/-- One warning is pushed per instruction whose hash string was already
seen; the count equals length minus the number of distinct
instructions. -/
def duplicateInstructionWarnings (instructions : List MessageInstruction) : List String :=
  List.replicate (instructions.length - instructions.dedup.length)
    "Duplicate instruction detected"

/-- Sponsor fee-payer check of validateNoFundLeak: skipped for an absent
or empty sponsor address (a falsy value in the source); otherwise the
account at index 0 must be the sponsor, where a missing or empty entry
also fails. -/
def sponsorFeePayerErrors (staticAccounts : List String)
    (sponsorAddress : Option String) : List String :=
  match sponsorAddress with
  | none => []
  | some s =>
    if s = "" then []
    else
      match staticAccounts.head? with
      | none => ["Sponsor is not the fee payer of this transaction"]
      | some feePayer =>
        if feePayer = "" ∨ ¬ feePayer = s then
          ["Sponsor is not the fee payer of this transaction"]
        else []

/-- TransactionBuilder.validateNoFundLeak on the decoded compiled
message (the decoder failure branch of the try/catch is outside this
embedding, which starts from an already decoded message). -/
def TransactionBuilder_validateNoFundLeak (message : CompiledMessage)
    (sponsorAddress : Option String) : ValidationResult :=
  let countErrors : List String :=
    if message.instructions.length < 2 then
      ["Transaction must have at least 2 instructions (fee + swap)"]
    else []
  let errors0 := sponsorFeePayerErrors message.staticAccounts sponsorAddress ++ countErrors
  match message.instructions.head? with
  | none =>
    { isValid := false, errors := errors0 ++ ["Transaction has no instructions"], warnings := [] }
  | some firstInstruction =>
    match message.staticAccounts[firstInstruction.programAddressIndex]? with
    | none =>
      { isValid := false
        errors := errors0 ++ ["Cannot find program ID for first instruction"]
        warnings := [] }
    | some programId =>
      if programId = "" then
        { isValid := false
          errors := errors0 ++ ["Cannot find program ID for first instruction"]
          warnings := [] }
      else
        let programOk := programId = SYSTEM_PROGRAM_ADDRESS ∨ programId = TOKEN_PROGRAM_ADDRESS ∨
          programId = TOKEN_2022_PROGRAM_ADDRESS ∨ programId = ASSOCIATED_TOKEN_PROGRAM_ADDRESS
        let errors1 :=
          if programOk then errors0
          else errors0 ++
            ["First instruction must be fee-related (SystemProgram, TokenProgram, or AssociatedTokenProgram)"]
        let countWarnings : List String :=
          if 20 < message.instructions.length then
            ["Transaction has unusually high instruction count"]
          else []
        { isValid := errors1.isEmpty
          errors := errors1
          warnings := countWarnings ++ duplicateInstructionWarnings message.instructions }

theorem sponsorFeePayerErrors_eq_nil_iff (staticAccounts : List String)
    (sponsorAddress : Option String) :
    sponsorFeePayerErrors staticAccounts sponsorAddress = [] ↔
      ∀ s, sponsorAddress = some s → ¬ s = "" → staticAccounts.head? = some s := by
  cases sponsorAddress with
  | none => simp [sponsorFeePayerErrors]
  | some s =>
    by_cases hse : s = ""
    · subst hse
      simp [sponsorFeePayerErrors]
    · cases hh : staticAccounts.head? with
      | none =>
        refine iff_of_false (by simp [sponsorFeePayerErrors, hse, hh]) ?_
        intro hall
        exact Option.noConfusion (hall s rfl hse)
      | some feePayer =>
        by_cases hfs : feePayer = s
        · subst hfs
          have hcond : ¬ (feePayer = "" ∨ ¬ feePayer = feePayer) := by
            simp [hse]
          refine iff_of_true (by simp [sponsorFeePayerErrors, hse, hh, hcond]) ?_
          intro s1 hs1 _
          exact hs1
        · have hcond : feePayer = "" ∨ ¬ feePayer = s := Or.inr hfs
          refine iff_of_false (by simp [sponsorFeePayerErrors, hse, hh, hcond]) ?_
          intro hall
          exact hfs (Option.some.inj (hall s rfl hse))

/-- C2: the transaction-builder no-fund-leak validation is valid exactly
when the sponsor (when supplied and nonempty) is the account at index 0,
at least two instructions exist, and the first instruction's program
resolves to the System, Token, Token-2022 or Associated-Token program;
in particular it is invalid whenever one of these fails, and duplicate
instructions influence only the warnings, never validity. -/
theorem TransactionBuilder_validateNoFundLeak_spec (message : CompiledMessage)
    (sponsorAddress : Option String) :
    (TransactionBuilder_validateNoFundLeak message sponsorAddress).isValid = true ↔
      ((∀ s, sponsorAddress = some s → ¬ s = "" → message.staticAccounts.head? = some s) ∧
       2 ≤ message.instructions.length ∧
       (∃ firstIx programId, message.instructions.head? = some firstIx ∧
         message.staticAccounts[firstIx.programAddressIndex]? = some programId ∧
         (programId = SYSTEM_PROGRAM_ADDRESS ∨ programId = TOKEN_PROGRAM_ADDRESS ∨
          programId = TOKEN_2022_PROGRAM_ADDRESS ∨
          programId = ASSOCIATED_TOKEN_PROGRAM_ADDRESS))) := by
  cases hh : message.instructions.head? with
  | none =>
    have hlen : message.instructions.length = 0 := by
      cases hl : message.instructions with
      | nil => simp
      | cons a t => rw [hl] at hh; simp at hh
    refine iff_of_false ?_ ?_
    · simp [TransactionBuilder_validateNoFundLeak, hh]
    · rintro ⟨-, hge, -⟩
      omega
  | some firstIx =>
    cases hgi : message.staticAccounts[firstIx.programAddressIndex]? with
    | none =>
      refine iff_of_false ?_ ?_
      · simp [TransactionBuilder_validateNoFundLeak, hh, hgi]
      · rintro ⟨-, -, fi, pid, hfi, hpid, -⟩
        obtain rfl := Option.some.inj hfi
        rw [hgi] at hpid
        exact Option.noConfusion hpid
    | some programId =>
      by_cases hemp : programId = ""
      · refine iff_of_false ?_ ?_
        · simp [TransactionBuilder_validateNoFundLeak, hh, hgi, hemp]
        · rintro ⟨-, -, fi, pid, hfi, hpid, hmem⟩
          obtain rfl := Option.some.inj hfi
          rw [hgi] at hpid
          obtain rfl := Option.some.inj hpid
          subst hemp
          revert hmem
          decide
      · by_cases hprog : programId = SYSTEM_PROGRAM_ADDRESS ∨ programId = TOKEN_PROGRAM_ADDRESS ∨
          programId = TOKEN_2022_PROGRAM_ADDRESS ∨ programId = ASSOCIATED_TOKEN_PROGRAM_ADDRESS
        · by_cases hlt : message.instructions.length < 2
          · refine iff_of_false ?_ (by rintro ⟨-, hge, -⟩; omega)
            simp [TransactionBuilder_validateNoFundLeak, hh, hgi, hemp, hprog, hlt]
          · have hcount :
                (if message.instructions.length < 2 then
                  ["Transaction must have at least 2 instructions (fee + swap)"]
                 else ([] : List String)) = [] := by rw [if_neg hlt]
            constructor
            · intro hvalid
              refine ⟨?_, by omega, firstIx, programId, rfl, hgi, hprog⟩
              rw [← sponsorFeePayerErrors_eq_nil_iff message.staticAccounts sponsorAddress]
              revert hvalid
              simp [TransactionBuilder_validateNoFundLeak, hh, hgi, hemp, hprog, hlt,
                List.isEmpty_iff]
            · rintro ⟨hsponsor, -, -⟩
              rw [← sponsorFeePayerErrors_eq_nil_iff message.staticAccounts sponsorAddress]
                at hsponsor
              simp [TransactionBuilder_validateNoFundLeak, hh, hgi, hemp, hprog, hlt,
                List.isEmpty_iff, hsponsor]
        · refine iff_of_false ?_ ?_
          · simp [TransactionBuilder_validateNoFundLeak, hh, hgi, hemp, hprog,
              List.isEmpty_iff]
          · rintro ⟨-, -, fi, pid, hfi, hpid, hmem⟩
            obtain rfl := Option.some.inj hfi
            rw [hgi] at hpid
            obtain rfl := Option.some.inj hpid
            exact hprog hmem

/-! ## TransactionBuilder.replaceBlockhash -/

/-- Length in bytes of a compact-u16 encoding (shortvec): 1 below 128,
2 below 16384, else 3. -/
def compactU16Len (n : ℕ) : ℕ := if n < 128 then 1 else if n < 16384 then 2 else 3

/-- Byte offset of the 32-byte blockhash inside a serialized
transaction: past the compact signature count and the signatures, then
past the optional v0 version prefix (high bit of the first message
byte), the 3-byte header, the compact static-account count and the
static account keys. -/
def blockhashOffset (tx : List ℕ) (numSigs numAccounts : ℕ) : ℕ :=
  let msgStart := compactU16Len numSigs + numSigs * 64
  let isV0 := Nat.testBit (tx.getD msgStart 0) 7
  let versionLen := if isV0 then 1 else 0
  let headerLen := 3
  msgStart + versionLen + headerLen + compactU16Len numAccounts + numAccounts * 32

/-- TransactionBuilder.replaceBlockhash on raw bytes. The decoded
old blockhash, the freshly fetched one (both as 32-byte arrays; base58
strings are equal exactly when the decoded byte arrays are), the
signature count and the static account count are the values the source
reads off the decoded transaction. The Uint8Array.set out-of-bounds
RangeError is the second error branch. -/
def replaceBlockhash (tx : List ℕ) (numSigs numAccounts : ℕ)
    (oldHash newHash : List ℕ) : Except String (List ℕ) :=
  if oldHash = newHash then .ok tx
  else
    let off := blockhashOffset tx numSigs numAccounts
    let existing := (tx.drop off).take 32
    if existing = oldHash.take existing.length then
      if off + newHash.length ≤ tx.length then
        .ok (tx.take off ++ newHash ++ tx.drop (off + newHash.length))
      else .error "RangeError: offset is out of bounds"
    else .error "Blockhash offset mismatch - raw bytes do not match decoded blockhash"

theorem drop_append_len {A : Type} (l1 l2 : List A) (n : ℕ) (h : l1.length = n) :
    (l1 ++ l2).drop n = l2 := by
  subst h
  exact List.drop_left l1 l2

/-- C4: replaceBlockhash is byte-identical when the fresh blockhash
equals the current one; when they differ it throws without producing
bytes unless the 32 bytes at the computed offset equal the decoded old
blockhash, and on success it rewrites exactly those 32 bytes to the new
blockhash, leaving every other byte and the length unchanged. -/
theorem replaceBlockhash_spec (tx : List ℕ) (numSigs numAccounts : ℕ)
    (oldHash newHash : List ℕ) :
    (oldHash = newHash → replaceBlockhash tx numSigs numAccounts oldHash newHash = .ok tx) ∧
    (¬ oldHash = newHash → oldHash.length = 32 → newHash.length = 32 →
      ¬ (tx.drop (blockhashOffset tx numSigs numAccounts)).take 32 = oldHash →
      ∃ e, replaceBlockhash tx numSigs numAccounts oldHash newHash = .error e) ∧
    (¬ oldHash = newHash → newHash.length = 32 →
      (tx.drop (blockhashOffset tx numSigs numAccounts)).take 32 = oldHash →
      blockhashOffset tx numSigs numAccounts + 32 ≤ tx.length →
      ∃ tx2, replaceBlockhash tx numSigs numAccounts oldHash newHash = .ok tx2 ∧
        tx2.length = tx.length ∧
        (∀ i, i < blockhashOffset tx numSigs numAccounts → tx2[i]? = tx[i]?) ∧
        (∀ i, blockhashOffset tx numSigs numAccounts + 32 ≤ i → tx2[i]? = tx[i]?) ∧
        (tx2.drop (blockhashOffset tx numSigs numAccounts)).take 32 = newHash) := by
  set off := blockhashOffset tx numSigs numAccounts with hoff
  refine ⟨?_, ?_, ?_⟩
  · intro heq
    simp [replaceBlockhash, heq]
  · intro hne hold hnew hmm
    rw [replaceBlockhash, if_neg hne]
    by_cases hchk : (tx.drop off).take 32 = oldHash.take ((tx.drop off).take 32).length
    · rw [← hoff, if_pos hchk]
      have hshort : ¬ off + 32 ≤ tx.length := by
        intro hlong
        apply hmm
        have hlen : ((tx.drop off).take 32).length = 32 := by
          simp only [List.length_take, List.length_drop]
          omega
        rw [hlen] at hchk
        rw [hchk, ← hold, List.take_length]
      rw [if_neg (by omega : ¬ off + newHash.length ≤ tx.length)]
      exact ⟨_, rfl⟩
    · rw [← hoff, if_neg hchk]
      exact ⟨_, rfl⟩
  · intro hne hnew heq hb
    have holdlen : oldHash.length = 32 := by
      have := congrArg List.length heq
      simp only [List.length_take, List.length_drop] at this
      omega
    have hofflen : off ≤ tx.length := by omega
    have hchk : (tx.drop off).take 32 = oldHash.take ((tx.drop off).take 32).length := by
      have hlen : ((tx.drop off).take 32).length = 32 := by
        simp only [List.length_take, List.length_drop]
        omega
      rw [hlen, heq, ← holdlen, List.take_length]
    rw [replaceBlockhash, if_neg hne, ← hoff, if_pos hchk,
      if_pos (by omega : off + newHash.length ≤ tx.length)]
    have htake : (tx.take off).length = off := by
      rw [List.length_take]
      omega
    refine ⟨_, rfl, ?_, ?_, ?_, ?_⟩
    · simp only [List.length_append, List.length_take, List.length_drop, hnew]
      omega
    · intro i hi
      rw [List.getElem?_append,
        if_pos (show i < (tx.take off ++ newHash).length by
          rw [List.length_append, htake, hnew]; omega),
        List.getElem?_append, if_pos (show i < (tx.take off).length by omega),
        List.getElem?_take, if_pos hi]
    · intro i hi
      rw [List.getElem?_append_right
          (show (tx.take off ++ newHash).length ≤ i by
            rw [List.length_append, htake, hnew]; omega),
        List.getElem?_drop]
      congr 1
      rw [List.length_append, htake, hnew]
      omega
    · rw [List.append_assoc,
        drop_append_len (tx.take off) (newHash ++ tx.drop (off + newHash.length)) off htake]
      exact List.take_left' hnew

/-! ## FeeCalculator.getSolPrice and fetchPythPriceOnchain -/

/-- MAX_PRICE_AGE_SECONDS = 300: reject prices older than 5 minutes. -/
def MAX_PRICE_AGE_SECONDS : ℤ := 300

/-- PRICE_CACHE_TTL = 60000 ms (1 minute). -/
def PRICE_CACHE_TTL : ℤ := 60000

/-- The PriceFeedMessage fields read from the Pyth PriceUpdateV2
account: price (i64), exponent (i32) and publish time (i64). -/
structure PythFeed where
  price : ℤ
  expo : ℤ
  publishTime : ℤ
  deriving DecidableEq

/-- FeeCalculator.fetchPythPriceOnchain: feed = none models a missing
account or feed id; a publish time older than the staleness bound and a
price outside the 10..1000 sanity band are errors, not prices. nowSec is
the wall clock in seconds. -/
def fetchPythPriceOnchain (feed : Option PythFeed) (nowSec : ℤ) : Except String ℚ :=
  match feed with
  | none => .error "Pyth SOL/USD price account not found on-chain"
  | some f =>
    let age := nowSec - f.publishTime
    if MAX_PRICE_AGE_SECONDS < age then .error "Pyth on-chain price is stale"
    else
      let actualPrice : ℚ := (f.price : ℚ) * (10 : ℚ) ^ f.expo
      if actualPrice < 10 ∨ 1000 < actualPrice then
        .error "Pyth price seems unreasonable"
      else .ok actualPrice

/-- FeeCalculator.getSolPrice: serve a cached price within the TTL;
otherwise try the on-chain fetch (its outcome passed as fetchResult),
falling back to any stale cached value on failure, and failing with the
oracle-unavailable error only when no cache exists at all. -/
def getSolPrice (cache : Option PriceCacheEntry) (nowMs : ℤ)
    (fetchResult : Except String ℚ) : Except String ℚ :=
  match cache with
  | some cached =>
    if nowMs - cached.timestamp < PRICE_CACHE_TTL then .ok cached.price
    else
      match fetchResult with
      | .ok p => .ok p
      | .error _ => .ok cached.price
  | none =>
    match fetchResult with
    | .ok p => .ok p
    | .error _ =>
      .error "SOL price unavailable: Pyth oracle returned no valid price and no cache exists"

/-- C8: the oracle serves a cached price within the TTL, serves the
stale cached value when the refresh fails, throws the
oracle-unavailable error when the refresh fails with no cache, and the
on-chain fetch turns a stale publish time or an out-of-band value into
a failure rather than a price. -/
theorem getSolPrice_spec :
    (∀ (p : ℚ) (ts nowMs : ℤ) (fetchResult : Except String ℚ),
      nowMs - ts < PRICE_CACHE_TTL →
        getSolPrice (some ⟨p, ts⟩) nowMs fetchResult = .ok p) ∧
    (∀ (p : ℚ) (ts nowMs : ℤ) (e : String),
      getSolPrice (some ⟨p, ts⟩) nowMs (.error e) = .ok p) ∧
    (∀ (nowMs : ℤ) (e : String),
      getSolPrice none nowMs (.error e) =
        .error "SOL price unavailable: Pyth oracle returned no valid price and no cache exists") ∧
    (∀ (f : PythFeed) (nowSec : ℤ),
      MAX_PRICE_AGE_SECONDS < nowSec - f.publishTime →
        ∃ e, fetchPythPriceOnchain (some f) nowSec = .error e) ∧
    (∀ (f : PythFeed) (nowSec : ℤ),
      ((f.price : ℚ) * (10 : ℚ) ^ f.expo < 10 ∨ 1000 < (f.price : ℚ) * (10 : ℚ) ^ f.expo) →
        ∃ e, fetchPythPriceOnchain (some f) nowSec = .error e) := by
  refine ⟨?_, ?_, ?_, ?_, ?_⟩
  · intro p ts nowMs fetchResult h
    simp [getSolPrice, h]
  · intro p ts nowMs e
    by_cases h : nowMs - ts < PRICE_CACHE_TTL <;> simp [getSolPrice, h]
  · intro nowMs e
    rfl
  · intro f nowSec h
    exact ⟨"Pyth on-chain price is stale", by simp [fetchPythPriceOnchain, h]⟩
  · intro f nowSec h
    by_cases hage : MAX_PRICE_AGE_SECONDS < nowSec - f.publishTime
    · exact ⟨"Pyth on-chain price is stale", by simp [fetchPythPriceOnchain, hage]⟩
    · exact ⟨"Pyth price seems unreasonable", by simp [fetchPythPriceOnchain, hage, h]⟩

/-! ## ProviderRegistry: stable descending sort (Array.prototype.sort is
stable, comparator bNet - aNet) -/

/-- Stable insertion into a descending-by-key list: a (the earlier
element of the original order) goes before every element whose key is
not larger. -/
def insertDesc {A : Type} (key : A → ℚ) (a : A) : List A → List A
  | [] => [a]
  | b :: l => if key b ≤ key a then a :: b :: l else b :: insertDesc key a l

/-- Stable descending sort by key, the behavior of a stable sort with
comparator key b - key a. -/
def sortDesc {A : Type} (key : A → ℚ) : List A → List A
  | [] => []
  | a :: l => insertDesc key a (sortDesc key l)

theorem insertDesc_perm {A : Type} (key : A → ℚ) (a : A) (l : List A) :
    (insertDesc key a l).Perm (a :: l) := by
  induction l with
  | nil => exact List.Perm.refl _
  | cons b t ih =>
    unfold insertDesc
    split
    · exact List.Perm.refl _
    · exact (ih.cons b).trans (List.Perm.swap a b t)

theorem sortDesc_perm {A : Type} (key : A → ℚ) (l : List A) :
    (sortDesc key l).Perm l := by
  induction l with
  | nil => exact List.Perm.refl _
  | cons a t ih =>
    exact (insertDesc_perm key a (sortDesc key t)).trans (ih.cons a)

theorem insertDesc_pairwise {A : Type} (key : A → ℚ) (a : A) (l : List A)
    (h : l.Pairwise (fun x y => key y ≤ key x)) :
    (insertDesc key a l).Pairwise (fun x y => key y ≤ key x) := by
  induction l with
  | nil => simp [insertDesc]
  | cons b t ih =>
    unfold insertDesc
    split
    · rename_i hba
      refine List.Pairwise.cons ?_ h
      intro x hx
      rcases List.mem_cons.mp hx with rfl | hxt
      · exact hba
      · exact le_trans (List.rel_of_pairwise_cons h hxt) hba
    · rename_i hba
      refine List.Pairwise.cons ?_ (ih h.of_cons)
      intro x hx
      have hx2 : x ∈ a :: t := (insertDesc_perm key a t).mem_iff.mp hx
      rcases List.mem_cons.mp hx2 with rfl | hxt
      · exact le_of_lt (lt_of_not_le hba)
      · exact List.rel_of_pairwise_cons h hxt

theorem sortDesc_pairwise {A : Type} (key : A → ℚ) (l : List A) :
    (sortDesc key l).Pairwise (fun x y => key y ≤ key x) := by
  induction l with
  | nil => simp [sortDesc]
  | cons a t ih => exact insertDesc_pairwise key a (sortDesc key t) ih

theorem insertDesc_filter {A : Type} (key : A → ℚ) (a : A) (l : List A) (v : ℚ) :
    (insertDesc key a l).filter (fun x => decide (key x = v)) =
      if key a = v then a :: l.filter (fun x => decide (key x = v))
      else l.filter (fun x => decide (key x = v)) := by
  induction l with
  | nil =>
    by_cases hav : key a = v <;> simp [insertDesc, List.filter, hav]
  | cons b t ih =>
    unfold insertDesc
    split
    · by_cases hav : key a = v <;> simp [List.filter_cons, hav]
    · rename_i hba
      by_cases hav : key a = v
      · have hbv : ¬ key b = v := by
          intro hbv
          exact hba (le_of_eq (hbv.trans hav.symm))
        simp [List.filter_cons, hbv, ih, hav]
      · by_cases hbv : key b = v <;> simp [List.filter_cons, hbv, ih, hav]

theorem sortDesc_filter {A : Type} (key : A → ℚ) (l : List A) (v : ℚ) :
    (sortDesc key l).filter (fun x => decide (key x = v)) =
      l.filter (fun x => decide (key x = v)) := by
  induction l with
  | nil => rfl
  | cons a t ih =>
    rw [sortDesc, insertDesc_filter, ih]
    by_cases hav : key a = v <;> simp [List.filter_cons, hav]

theorem insertDesc_of_max {A : Type} (key : A → ℚ) (a : A) (l : List A)
    (hmax : ∀ b ∈ l, key b ≤ key a) : insertDesc key a l = a :: l := by
  cases l with
  | nil => rfl
  | cons b t => simp [insertDesc, hmax b (List.mem_cons_self b t)]

theorem sortDesc_head_key_ge {A : Type} (key : A → ℚ) (l : List A) (x : A) (hx : x ∈ l)
    (h : A) (t : List A) (hht : sortDesc key l = h :: t) : key x ≤ key h := by
  have hmem : x ∈ sortDesc key l := (sortDesc_perm key l).mem_iff.mpr hx
  rw [hht] at hmem
  rcases List.mem_cons.mp hmem with rfl | hxt
  · exact le_refl _
  · have hp := sortDesc_pairwise key l
    rw [hht] at hp
    exact List.rel_of_pairwise_cons hp hxt

/-! ## ProviderRegistry.rankQuotes and selectRecommendedQuote
(src/lib/solana/SolanaService.ts) -/

structure BridgeQuoteE where
  provider : String
  destAmount : ℚ
  totalFees : ℚ
  estimatedDuration : ℚ
  deriving DecidableEq

def defaultBridgeQuote : BridgeQuoteE :=
  { provider := "", destAmount := 0, totalFees := 0, estimatedDuration := 0 }

/-- ProviderRegistry.calculateNetAmount: destination amount minus the
route total fees. -/
def netAmount (q : BridgeQuoteE) : ℚ := q.destAmount - q.totalFees

/-- ProviderRegistry.rankQuotes: stable sort descending by net
amount. -/
def rankQuotes (quotes : List BridgeQuoteE) : List BridgeQuoteE :=
  sortDesc netAmount quotes

/-- Math.max over the estimated durations (used on nonempty candidate
lists). -/
def maxDuration : List BridgeQuoteE → ℚ
  | [] => 0
  | q :: t => (t.map (fun r => r.estimatedDuration)).foldr max q.estimatedDuration

/-- Weighted score of a candidate: 70% normalized net amount plus 30%
normalized speed. -/
def quoteScore (bestNet maxDur : ℚ) (q : BridgeQuoteE) : ℚ :=
  netAmount q / bestNet * (7 / 10) + (1 - q.estimatedDuration / maxDur) * (3 / 10)

/-- ProviderRegistry.selectRecommendedQuote: a single candidate is
returned as is; otherwise candidates are scored against the best net
amount (head of the ranked list) and the maximum duration, sorted by
score (stable, descending) and the head returned. -/
def selectRecommendedQuote (rankedQuotes : List BridgeQuoteE) : BridgeQuoteE :=
  match rankedQuotes with
  | [] => defaultBridgeQuote
  | [q] => q
  | q1 :: q2 :: rest =>
    let bestNet := netAmount q1
    let maxDur := maxDuration (q1 :: q2 :: rest)
    let scoredQuotes := (q1 :: q2 :: rest).map fun q => (q, quoteScore bestNet maxDur q)
    ((sortDesc (fun s => s.2) scoredQuotes).headD (defaultBridgeQuote, 0)).1

/-- C7: ranking is deterministic and fully characterized: rankQuotes is
a permutation of its input sorted descending by net amount with ties
keeping the input (registration) order, and the recommended quote
attains the maximal weighted score, ties resolving to the
net-amount-best quote. -/
theorem rankQuotes_selectRecommendedQuote_spec (quotes : List BridgeQuoteE) :
    (rankQuotes quotes).Perm quotes ∧
    (rankQuotes quotes).Pairwise (fun a b => netAmount b ≤ netAmount a) ∧
    (∀ v : ℚ, (rankQuotes quotes).filter (fun q => decide (netAmount q = v)) =
      quotes.filter (fun q => decide (netAmount q = v))) ∧
    (¬ quotes = [] → selectRecommendedQuote (rankQuotes quotes) ∈ quotes) ∧
    (∀ q ∈ quotes,
      quoteScore (netAmount ((rankQuotes quotes).headD defaultBridgeQuote))
          (maxDuration (rankQuotes quotes)) q ≤
        quoteScore (netAmount ((rankQuotes quotes).headD defaultBridgeQuote))
          (maxDuration (rankQuotes quotes)) (selectRecommendedQuote (rankQuotes quotes))) ∧
    (∀ r1 rest, rankQuotes quotes = r1 :: rest →
      (∀ q ∈ quotes, quoteScore (netAmount r1) (maxDuration (r1 :: rest)) q ≤
        quoteScore (netAmount r1) (maxDuration (r1 :: rest)) r1) →
      selectRecommendedQuote (rankQuotes quotes) = r1) := by
  have hperm : (rankQuotes quotes).Perm quotes := sortDesc_perm netAmount quotes
  refine ⟨hperm, sortDesc_pairwise netAmount quotes, sortDesc_filter netAmount quotes,
    ?_, ?_, ?_⟩
  · intro hne
    cases hrq : rankQuotes quotes with
    | nil =>
      exact absurd (List.Perm.eq_nil ((hrq ▸ hperm).symm)) hne
    | cons r1 rest =>
      cases rest with
      | nil =>
        exact (hrq ▸ hperm).mem_iff.mp (List.mem_cons_self r1 [])
      | cons r2 rest2 =>
        simp only [selectRecommendedQuote]
        set key : BridgeQuoteE × ℚ → ℚ := fun s => s.2 with hkey
        set scored := (r1 :: r2 :: rest2).map
          (fun q => (q, quoteScore (netAmount r1) (maxDuration (r1 :: r2 :: rest2)) q))
          with hscored
        have hsne : ¬ sortDesc key scored = [] := by
          intro hnil
          have := (sortDesc_perm key scored).symm.length_eq
          rw [hnil] at this
          simp [hscored] at this
        cases hsd : sortDesc key scored with
        | nil => exact absurd hsd hsne
        | cons h tS =>
          have hhmem : h ∈ scored :=
            (sortDesc_perm key scored).mem_iff.mp (hsd ▸ List.mem_cons_self h tS)
          obtain ⟨qh, hqh, hqheq⟩ := List.mem_map.mp hhmem
          simp only [List.headD_cons]
          rw [← hqheq]
          exact (hrq ▸ hperm).mem_iff.mp hqh
  · intro q hq
    cases hrq : rankQuotes quotes with
    | nil =>
      have hq0 : quotes = [] := by
        have hsym := hperm.symm
        rw [hrq] at hsym
        exact hsym.eq_nil
      rw [hq0] at hq
      exact absurd hq (by simp)
    | cons r1 rest =>
      cases rest with
      | nil =>
        have hqr : q = r1 := by
          have hsym := hperm.symm
          rw [hrq] at hsym
          simpa using hsym.mem_iff.mp hq
        subst hqr
        exact le_refl _
      | cons r2 rest2 =>
        rw [hrq] at hperm
        simp only [selectRecommendedQuote, List.headD_cons]
        set bestNet := netAmount r1 with hbn
        set maxDur := maxDuration (r1 :: r2 :: rest2) with hmd
        set key : BridgeQuoteE × ℚ → ℚ := fun s => s.2 with hkey
        set scored := (r1 :: r2 :: rest2).map (fun q => (q, quoteScore bestNet maxDur q))
          with hscored
        have hsne : ¬ sortDesc key scored = [] := by
          intro hnil
          have := (sortDesc_perm key scored).symm.length_eq
          rw [hnil] at this
          simp [hscored] at this
        cases hsd : sortDesc key scored with
        | nil => exact absurd hsd hsne
        | cons h tS =>
          have hhmem : h ∈ scored :=
            (sortDesc_perm key scored).mem_iff.mp (hsd ▸ List.mem_cons_self h tS)
          obtain ⟨qh, hqh, hqheq⟩ := List.mem_map.mp hhmem
          have hqmem : (q, quoteScore bestNet maxDur q) ∈ scored :=
            List.mem_map.mpr ⟨q, hperm.symm.mem_iff.mp hq, rfl⟩
          have hle := sortDesc_head_key_ge key scored _ hqmem h tS hsd
          simp only [List.headD_cons]
          have hh2 : key h = quoteScore bestNet maxDur h.1 := by
            rw [← hqheq]
          calc quoteScore bestNet maxDur q = key (q, quoteScore bestNet maxDur q) := rfl
            _ ≤ key h := hle
            _ = quoteScore bestNet maxDur h.1 := hh2
  · intro r1 rest hrq hmax
    rw [hrq]
    cases rest with
    | nil => rw [selectRecommendedQuote]
    | cons r2 rest2 =>
      rw [hrq] at hperm
      simp only [selectRecommendedQuote]
      set bestNet := netAmount r1 with hbn
      set maxDur := maxDuration (r1 :: r2 :: rest2) with hmd
      set key : BridgeQuoteE × ℚ → ℚ := fun s => s.2 with hkey
      have hstep : sortDesc key ((r1 :: r2 :: rest2).map
          (fun q => (q, quoteScore bestNet maxDur q))) =
          (r1, quoteScore bestNet maxDur r1) ::
            sortDesc key ((r2 :: rest2).map (fun q => (q, quoteScore bestNet maxDur q))) := by
        rw [List.map_cons, sortDesc]
        refine insertDesc_of_max key _ _ ?_
        intro b hb
        have hbmem : b ∈ (r2 :: rest2).map (fun q => (q, quoteScore bestNet maxDur q)) :=
          (sortDesc_perm key _).mem_iff.mp hb
        obtain ⟨qb, hqb, hqbeq⟩ := List.mem_map.mp hbmem
        have hqbq : qb ∈ quotes := hperm.mem_iff.mp (List.mem_cons_of_mem r1 hqb)
        rw [← hqbeq]
        exact hmax qb hqbq
      rw [hstep]
      simp

/-! ## ProviderRegistry.getAggregatedQuotes -/

/-- A registered provider with the outcomes of its two external calls
for the request under consideration: supportsRoute and getQuote, each
either a value or a thrown error. -/
structure ProviderE where
  name : String
  supportsRoute : Except String Bool
  getQuote : Except String BridgeQuoteE

inductive PRStatus
  | success
  | noRoute
  | error
  deriving DecidableEq

structure ProviderResultE where
  provider : String
  status : PRStatus
  errorMessage : Option String
  deriving DecidableEq

structure AggregatedQuotesE where
  quotes : List BridgeQuoteE
  bestQuote : BridgeQuoteE
  recommendedQuote : BridgeQuoteE
  providerResults : List ProviderResultE

/-- A provider passes the route filter if supportsRoute returned true
or threw (on error the quote call decides). -/
def supportsOrOptimistic (p : ProviderE) : Bool :=
  match p.supportsRoute with
  | .ok b => b
  | .error _ => true

def eligibleProviders (providers : List ProviderE) : List ProviderE :=
  providers.filter supportsOrOptimistic

/-- The quotes actually obtained: every eligible provider whose
getQuote succeeded, in registration order. -/
def collectedQuotes (providers : List ProviderE) : List BridgeQuoteE :=
  (eligibleProviders providers).filterMap fun p => p.getQuote.toOption

/-- ProviderRegistry.getAggregatedQuotes: fail with no registered
provider; record no-route probes; fail when no provider is eligible;
fetch quotes recording per-provider success or error; fail when zero
quotes were obtained; otherwise rank and pick the best and recommended
quotes. -/
def getAggregatedQuotes (providers : List ProviderE) : Except String AggregatedQuotesE :=
  if providers.isEmpty then .error "No bridge providers registered"
  else
    let noRouteResults := providers.filterMap fun p =>
      match p.supportsRoute with
      | .ok false => some { provider := p.name, status := .noRoute, errorMessage := none }
      | _ => none
    let eligible := eligibleProviders providers
    if eligible.isEmpty then .error "No providers support this token pair"
    else
      let quoteResults := eligible.map fun p =>
        match p.getQuote with
        | .ok _ => ({ provider := p.name, status := .success, errorMessage := none } :
            ProviderResultE)
        | .error m => { provider := p.name, status := .error, errorMessage := some m }
      let quotes := collectedQuotes providers
      if quotes.isEmpty then .error "Failed to get quotes from any provider"
      else
        let ranked := rankQuotes quotes
        .ok { quotes := ranked
              bestQuote := ranked.headD defaultBridgeQuote
              recommendedQuote := selectRecommendedQuote ranked
              providerResults := noRouteResults ++ quoteResults }

theorem except_toOption_eq_some {e : Type} {a : Type} (x : Except e a) (v : a) :
    x.toOption = some v ↔ x = .ok v := by
  cases x <;> simp [Except.toOption]

/-- C6: a provider whose supportsRoute probe throws is optimistically
kept among the eligible providers; a provider whose getQuote fails is
recorded in providerResults with its error and only excluded from the
quote list (every returned quote comes from a successful getQuote); and
the aggregation fails exactly when zero providers returned a quote. -/
theorem getAggregatedQuotes_spec (providers : List ProviderE) :
    (∀ p ∈ providers, (∃ e, p.supportsRoute = .error e) → p ∈ eligibleProviders providers) ∧
    (∀ agg, getAggregatedQuotes providers = .ok agg →
      (∀ p ∈ eligibleProviders providers, ∀ m, p.getQuote = .error m →
        ({ provider := p.name, status := .error, errorMessage := some m } : ProviderResultE) ∈
          agg.providerResults) ∧
      (∀ q ∈ agg.quotes, ∃ p, p ∈ eligibleProviders providers ∧ p.getQuote = .ok q)) ∧
    ((∃ e, getAggregatedQuotes providers = .error e) ↔ collectedQuotes providers = []) := by
  refine ⟨?_, ?_, ?_⟩
  · intro p hp ⟨e, he⟩
    exact List.mem_filter.mpr ⟨hp, by simp [supportsOrOptimistic, he]⟩
  · intro agg hagg
    by_cases h1 : providers.isEmpty
    · rw [getAggregatedQuotes, if_pos h1] at hagg
      exact absurd hagg (by simp)
    · by_cases h2 : (eligibleProviders providers).isEmpty
      · rw [getAggregatedQuotes, if_neg h1, if_pos h2] at hagg
        exact absurd hagg (by simp)
      · by_cases h3 : (collectedQuotes providers).isEmpty
        · rw [getAggregatedQuotes, if_neg h1, if_neg h2, if_pos h3] at hagg
          exact absurd hagg (by simp)
        · rw [getAggregatedQuotes, if_neg h1, if_neg h2, if_neg h3] at hagg
          have hagg2 := (Except.ok.inj hagg).symm
          constructor
          · intro p hp m hm
            rw [hagg2]
            simp only
            refine List.mem_append.mpr (Or.inr ?_)
            refine List.mem_map.mpr ⟨p, hp, ?_⟩
            rw [hm]
          · intro q hq
            rw [hagg2] at hq
            simp only at hq
            have hqc : q ∈ collectedQuotes providers :=
              (sortDesc_perm netAmount (collectedQuotes providers)).mem_iff.mp hq
            obtain ⟨p, hp, hpq⟩ := List.mem_filterMap.mp hqc
            exact ⟨p, hp, (except_toOption_eq_some p.getQuote q).mp hpq⟩
  · constructor
    · rintro ⟨e, he⟩
      by_cases h1 : providers.isEmpty
      · have : providers = [] := List.isEmpty_iff.mp h1
        rw [this]
        rfl
      · by_cases h2 : (eligibleProviders providers).isEmpty
        · have : eligibleProviders providers = [] := List.isEmpty_iff.mp h2
          rw [collectedQuotes, this]
          rfl
        · by_cases h3 : (collectedQuotes providers).isEmpty
          · exact List.isEmpty_iff.mp h3
          · rw [getAggregatedQuotes, if_neg h1, if_neg h2, if_neg h3] at he
            exact absurd he (by simp)
    · intro hc
      by_cases h1 : providers.isEmpty
      · exact ⟨"No bridge providers registered", by rw [getAggregatedQuotes, if_pos h1]⟩
      · by_cases h2 : (eligibleProviders providers).isEmpty
        · exact ⟨"No providers support this token pair",
            by rw [getAggregatedQuotes, if_neg h1, if_pos h2]⟩
        · have h3 : (collectedQuotes providers).isEmpty := by rw [hc]; rfl
          exact ⟨"Failed to get quotes from any provider",
            by rw [getAggregatedQuotes, if_neg h1, if_neg h2, if_pos h3]⟩

/-! ## SwapOrchestrator (src/lib/swap/SwapOrchestrator.ts) -/

/-- The slice of a pending cache entry that executeSwap consults: the
chosen fee token and the expiry timestamp. -/
structure PendingSwapData where
  userFeeToken : String
  validUntil : ℤ
  deriving DecidableEq

/-- The orchestrator state the claims concern: the in-memory pending
map (JS Map iterated in insertion order) and the ids of durable swap
records created through the repository. -/
structure OrchestratorState where
  pendingSwaps : List (String × PendingSwapData)
  dbSwapIds : List String
  deriving DecidableEq

def lookupPending (st : OrchestratorState) (swapId : String) : Option PendingSwapData :=
  (st.pendingSwaps.find? fun p => p.1 == swapId).map fun p => p.2

def removePending (st : OrchestratorState) (swapId : String) : OrchestratorState :=
  { st with pendingSwaps := st.pendingSwaps.filter fun p => !(p.1 == swapId) }

/-- JS Map.set: replace in place when the key exists, else append. -/
def mapSet (m : List (String × PendingSwapData)) (k : String) (v : PendingSwapData) :
    List (String × PendingSwapData) :=
  if m.any fun p => p.1 == k then m.map fun p => if p.1 == k then (k, v) else p
  else m ++ [(k, v)]

/-- SwapOrchestrator.cleanupExpiredPendingSwaps: drop entries whose
validUntil is in the past. -/
def cleanupExpiredPendingSwaps (st : OrchestratorState) (nowMs : ℤ) : OrchestratorState :=
  { st with pendingSwaps := st.pendingSwaps.filter fun p => !decide (p.2.validUntil < nowMs) }

/-- SwapOrchestrator.prepareSwap, reduced to its effects on the
orchestrator state: sweep expired entries, then on success (buildOk:
quote validation, cost estimation, build, economic validation, fee
injection and no-fund-leak all passed) store the new entry in the
pending cache under the generated id. No repository call occurs on any
path. -/
def prepareSwap (st : OrchestratorState) (nowMs : ℤ) (newSwapId : String)
    (pendingData : PendingSwapData) (buildOk : Bool) : OrchestratorState × Bool :=
  let st1 := cleanupExpiredPendingSwaps st nowMs
  if buildOk then
    ({ st1 with pendingSwaps := mapSet st1.pendingSwaps newSwapId pendingData }, true)
  else (st1, false)

inductive ExecOutcome
  | errNotFound
  | errQuoteExpired
  | resultFailed
  | resultSubmitted
  deriving DecidableEq

structure ExecEffects where
  state : OrchestratorState
  outcome : ExecOutcome
  submitted : Bool
  deriving DecidableEq

/-- SwapOrchestrator.executeSwap: look up the pending entry (throw
NotFoundError when absent); delete it and throw QuoteExpiredError when
expired; for a sponsored swap whose final no-fund-leak validation fails
(noFundLeakOk = false), delete it and return a failed result without
submitting; otherwise create the durable record, delete the entry, and
submit (sendOk is sendAndConfirmTransaction's outcome). The submitted
flag records whether a transaction was sent. -/
def executeSwap (st : OrchestratorState) (swapId : String) (nowMs : ℤ)
    (noFundLeakOk : Bool) (sendOk : Bool) : ExecEffects :=
  match lookupPending st swapId with
  | none => { state := st, outcome := .errNotFound, submitted := false }
  | some pending =>
    if pending.validUntil < nowMs then
      { state := removePending st swapId, outcome := .errQuoteExpired, submitted := false }
    else
      if !(pending.userFeeToken == "SOL") && !noFundLeakOk then
        { state := removePending st swapId, outcome := .resultFailed, submitted := false }
      else
        let stDb := { st with dbSwapIds := swapId :: st.dbSwapIds }
        { state := removePending stDb swapId
          outcome := if sendOk then .resultSubmitted else .resultFailed
          submitted := true }

theorem lookupPending_removePending (st : OrchestratorState) (swapId : String) :
    lookupPending (removePending st swapId) swapId = none := by
  unfold lookupPending removePending
  rw [Option.map_eq_none']
  rw [List.find?_eq_none]
  intro x hx
  have hf := List.of_mem_filter hx
  simp only [Bool.not_eq_true'] at hf
  simp [hf]

theorem find?_map_replace (m : List (String × PendingSwapData)) (k : String)
    (v : PendingSwapData) (hany : (m.any fun p => p.1 == k) = true) :
    ((m.map fun p => if p.1 == k then (k, v) else p).find? fun p => p.1 == k) = some (k, v) := by
  induction m with
  | nil => simp at hany
  | cons p t ih =>
    by_cases hp : (p.1 == k) = true
    · simp only [List.map_cons, if_pos hp]
      rw [List.find?_cons_of_pos _ (by simp)]
    · rw [List.any_cons] at hany
      rw [Bool.not_eq_true] at hp
      rw [hp] at hany
      simp only [Bool.false_or] at hany
      simp only [List.map_cons, if_neg (by rw [hp]; simp : ¬ (p.1 == k) = true)]
      rw [List.find?_cons_of_neg _ (by rw [hp]; simp)]
      exact ih hany

theorem find?_append_new (m : List (String × PendingSwapData)) (k : String)
    (v : PendingSwapData) (hany : (m.any fun p => p.1 == k) = false) :
    ((m ++ [(k, v)]).find? fun p => p.1 == k) = some (k, v) := by
  induction m with
  | nil =>
    simp only [List.nil_append]
    rw [List.find?_cons_of_pos _ (by simp)]
  | cons p t ih =>
    rw [List.any_cons] at hany
    have hp : (p.1 == k) = false := by
      cases hpk : (p.1 == k) <;> rw [hpk] at hany <;> simp_all
    have ht : (t.any fun p => p.1 == k) = false := by
      rw [hp] at hany
      simpa using hany
    rw [List.cons_append, List.find?_cons_of_neg _ (by rw [hp]; simp)]
    exact ih ht

theorem lookupPending_mapSet (m : List (String × PendingSwapData)) (k : String)
    (v : PendingSwapData) (db : List String) :
    lookupPending { pendingSwaps := mapSet m k v, dbSwapIds := db } k = some v := by
  unfold lookupPending mapSet
  by_cases hany : (m.any fun p => p.1 == k) = true
  · simp only [if_pos hany]
    rw [find?_map_replace m k v hany]
    rfl
  · rw [Bool.not_eq_true] at hany
    simp only [hany, Bool.false_eq_true, if_false]
    rw [find?_append_new m k v hany]
    rfl

/-- C3 (amended): prepareSwap stores the prepared result only in the
in-memory pending cache and creates no durable record; executeSwap
consumes the cache entry on every path it takes after finding it, so a
second executeSwap on the same id, like any executeSwap on a missing
id, returns a not-found error and never submits a transaction; an
executeSwap on an expired entry still in the cache consumes it and
returns a quote-expired error, likewise without submitting. -/
theorem executeSwap_consumes_pending_entry (st : OrchestratorState) (swapId : String)
    (nowMs : ℤ) (noFundLeakOk sendOk : Bool) :
    (∀ (nowMs2 : ℤ) (newId : String) (pd : PendingSwapData) (buildOk : Bool),
      ((prepareSwap st nowMs2 newId pd buildOk).1).dbSwapIds = st.dbSwapIds ∧
      (buildOk = true →
        lookupPending ((prepareSwap st nowMs2 newId pd buildOk).1) newId = some pd)) ∧
    (lookupPending st swapId = none →
      executeSwap st swapId nowMs noFundLeakOk sendOk =
        { state := st, outcome := .errNotFound, submitted := false }) ∧
    lookupPending (executeSwap st swapId nowMs noFundLeakOk sendOk).state swapId = none ∧
    (∀ (nowMs2 : ℤ) (v2 s2 : Bool),
      executeSwap (executeSwap st swapId nowMs noFundLeakOk sendOk).state swapId nowMs2 v2 s2 =
        { state := (executeSwap st swapId nowMs noFundLeakOk sendOk).state,
          outcome := .errNotFound, submitted := false }) ∧
    (∀ pd, lookupPending st swapId = some pd → pd.validUntil < nowMs →
      executeSwap st swapId nowMs noFundLeakOk sendOk =
        { state := removePending st swapId, outcome := .errQuoteExpired,
          submitted := false }) := by
  have hconsumed :
      lookupPending (executeSwap st swapId nowMs noFundLeakOk sendOk).state swapId = none := by
    cases hl : lookupPending st swapId with
    | none => simp only [executeSwap, hl]
    | some pd =>
      simp only [executeSwap, hl]
      by_cases hexp : pd.validUntil < nowMs
      · simp only [if_pos hexp]
        exact lookupPending_removePending st swapId
      · simp only [if_neg hexp]
        by_cases hval : (!(pd.userFeeToken == "SOL") && !noFundLeakOk) = true
        · simp only [if_pos hval]
          exact lookupPending_removePending st swapId
        · simp only [if_neg hval]
          exact lookupPending_removePending
            { st with dbSwapIds := swapId :: st.dbSwapIds } swapId
  refine ⟨?_, ?_, hconsumed, ?_, ?_⟩
  · intro nowMs2 newId pd buildOk
    cases buildOk with
    | false => exact ⟨rfl, by intro h; exact absurd h (by simp)⟩
    | true =>
      refine ⟨rfl, fun _ => ?_⟩
      exact lookupPending_mapSet (cleanupExpiredPendingSwaps st nowMs2).pendingSwaps newId pd
        (cleanupExpiredPendingSwaps st nowMs2).dbSwapIds
  · intro hl
    simp only [executeSwap, hl]
  · intro nowMs2 v2 s2
    have h2 := hconsumed
    revert h2
    generalize (executeSwap st swapId nowMs noFundLeakOk sendOk).state = st2
    intro h2
    simp only [executeSwap, h2]
  · intro pd hl hexp
    simp only [executeSwap, hl, if_pos hexp]

/-- Concrete orchestrator state holding one pending entry that expired
at time 0. -/
def expiredPendingState : OrchestratorState :=
  { pendingSwaps := [("swap-1", { userFeeToken := "USDC", validUntil := 0 })]
    dbSwapIds := [] }

/-- C3 counterexample: an executeSwap on an id whose cached entry has
expired returns the quote-expired error, not a not-found error as the
claim states. -/
theorem executeSwap_expired_returns_quote_expired :
    (executeSwap expiredPendingState "swap-1" 1 true true).outcome =
      ExecOutcome.errQuoteExpired ∧
    ¬ ExecOutcome.errQuoteExpired = ExecOutcome.errNotFound :=
  ⟨by decide, by decide⟩
